import Mathlib

/-!
Shallow embedding of the tidyproxy repository (src/util/tidyhq.py and
src/pull.py) and verification of its specification claims.

Python dictionaries coming from JSON are modelled as insertion-ordered
association lists whose keys are either integers or strings (`PKey`),
matching the heterogeneous int/string keys the original code juggles.
Wall-clock instants are modelled as integer seconds since the epoch; each
operation that reads the clock takes the instant as an explicit parameter.
-/

namespace TidyHQ

/-- Keys of Python dicts holding JSON-derived data: integers or strings. -/
inductive PKey where
  | int (n : Int)
  | str (s : String)
deriving DecidableEq, Repr

instance instDecEqExcept {E A : Type} [DecidableEq E] [DecidableEq A] :
    DecidableEq (Except E A) := fun a b =>
  match a, b with
  | .error e1, .error e2 =>
    if h : e1 = e2 then isTrue (h ▸ rfl) else isFalse fun hh => h (Except.error.inj hh)
  | .error _, .ok _ => isFalse fun hh => Except.noConfusion hh
  | .ok _, .error _ => isFalse fun hh => Except.noConfusion hh
  | .ok a1, .ok a2 =>
    if h : a1 = a2 then isTrue (h ▸ rfl) else isFalse fun hh => h (Except.ok.inj hh)

/-- Python `str(k)` applied to a key, as used by `str(group["id"])`. -/
def pkeyStr : PKey → String
  | .int n => toString n
  | .str s => s

/-- Python `d.get(k)` / `d[k]` lookup: value of the first entry with this key. -/
def alGet {K V : Type} [DecidableEq K] : List (K × V) → K → Option V
  | [], _ => none
  | (k0, v0) :: t, k => if k0 = k then some v0 else alGet t k

/-- Python `d[k] = v`: replace the value of an existing key in place, preserving
its position, or append a fresh entry at the end. -/
def alSet {K V : Type} [DecidableEq K] : List (K × V) → K → V → List (K × V)
  | [], k, v => [(k, v)]
  | (k0, v0) :: t, k, v => if k0 = k then (k0, v) :: t else (k0, v0) :: alSet t k v

/-- Python pattern `d.setdefault(k, []).append(v)` used for grouping values. -/
def alAppend {K V : Type} [DecidableEq K] (d : List (K × List V)) (k : K) (v : V) :
    List (K × List V) :=
  match alGet d k with
  | none => alSet d k [v]
  | some l => alSet d k (l ++ [v])

/-- Decimal value of an ASCII digit character. -/
def digitVal (c : Char) : Option Nat :=
  if 48 ≤ c.toNat ∧ c.toNat ≤ 57 then some (c.toNat - 48) else none

/-- Two-digit decimal field of a timestamp string. -/
def num2 (a b : Char) : Option Nat := do
  let x ← digitVal a
  let y ← digitVal b
  pure (10 * x + y)

/-- Four-digit decimal field of a timestamp string. -/
def num4 (a b c d : Char) : Option Nat := do
  let x ← num2 a b
  let y ← num2 c d
  pure (100 * x + y)

/-- Gregorian leap-year test. -/
def isLeap (y : Int) : Bool :=
  y % 4 = 0 ∧ (y % 100 ≠ 0 ∨ y % 400 = 0)

/-- Length of a month in the proleptic Gregorian calendar. -/
def daysInMonth (y m : Int) : Int :=
  if m = 2 then (if isLeap y then 29 else 28)
  else if m = 4 ∨ m = 6 ∨ m = 9 ∨ m = 11 then 30
  else 31

/-- Days since 1970-01-01 of a civil date (Hinnant's days-from-civil algorithm). -/
def daysFromCivil (y m d : Int) : Int :=
  let y1 : Int := if m ≤ 2 then y - 1 else y
  let era : Int := Int.fdiv y1 400
  let yoe : Int := y1 - era * 400
  let mp : Int := Int.emod (m + 9) 12
  let doy : Int := Int.fdiv (153 * mp + 2) 5 + d - 1
  let doe : Int := yoe * 365 + Int.fdiv yoe 4 - Int.fdiv yoe 100 + doy
  era * 146097 + doe - 719468

/-- Model of `datetime.datetime.strptime(s, "%Y-%m-%dT%H:%M:%S%z").timestamp()`:
parse an ISO-8601 timestamp with numeric UTC offset (for example
`2022-12-30T16:36:35+0000`) and return the epoch instant in seconds, or `none`
where `strptime` would raise `ValueError`. -/
def parseTs (s : String) : Option Int :=
  match s.toList with
  | [y1, y2, y3, y4, '-', m1, m2, '-', d1, d2, 'T',
     h1, h2, ':', n1, n2, ':', s1, s2, sg, o1, o2, o3, o4] => do
    let y ← num4 y1 y2 y3 y4
    let mo ← num2 m1 m2
    let d ← num2 d1 d2
    let h ← num2 h1 h2
    let mi ← num2 n1 n2
    let se ← num2 s1 s2
    let oh ← num2 o1 o2
    let om ← num2 o3 o4
    let sgn : Int ← match sg with
      | '+' => some 1
      | '-' => some (-1)
      | _ => none
    guard (1 ≤ mo ∧ mo ≤ 12)
    guard (1 ≤ (d : Int) ∧ (d : Int) ≤ daysInMonth y mo)
    guard (h ≤ 23 ∧ mi ≤ 59 ∧ se ≤ 59)
    guard (oh ≤ 23 ∧ om ≤ 59)
    pure (daysFromCivil y mo d * 86400 + h * 3600 + mi * 60 + se
          - sgn * (oh * 3600 + om * 60))
  | _ => none

/-- Custom field record `{id, value}` attached to a contact. -/
structure CustomField where
  id : String
  value : String
deriving DecidableEq, Repr

/-- Group reference `{id, ...}` inside a contact's `groups` list. -/
structure GroupRef where
  id : PKey
deriving DecidableEq, Repr

/-- Contact record; `other` stands for the remaining JSON payload, which the
code never inspects and passes through unchanged. -/
structure Contact where
  id : PKey
  groups : List GroupRef
  custom_fields : List CustomField
  other : String := ""
deriving DecidableEq, Repr

/-- Group record; `membership` is `none` while the JSON object has no
`membership` key, and `some l` once one has been created. -/
structure Group where
  membership : Option (List PKey) := none
  other : String := ""
deriving DecidableEq, Repr

/-- Invoice record with its `created_at` kept as the raw string, exactly as the
code stores it. -/
structure Invoice where
  id : PKey
  contact_id : PKey
  created_at : String
  other : String := ""
deriving DecidableEq, Repr

/-- Membership record. -/
structure MembershipRec where
  contact_id : PKey
  membership_level_id : PKey
  other : String := ""
deriving DecidableEq, Repr

/-- Organization record. -/
structure Org where
  domain_prefix : String := ""
  other : String := ""
deriving DecidableEq, Repr

/-- The cache dict built by `setup_cache` and persisted to `cache.json`. -/
structure Snapshot where
  contacts : List Contact
  groups : List (PKey × Group)
  memberships : List MembershipRec
  invoices : List (PKey × List Invoice)
  org : Org
  time : Int
deriving DecidableEq, Repr

/-- The `tidyhq` section of `config.json` that the code reads. -/
structure Config where
  token : String := ""
  ids : List (String × String) := []
  cache_expiry : Int := 86400
deriving DecidableEq, Repr

/-- The 18-month trimming window `86400 * 30 * 18` from `setup_cache`. -/
def trimWindow : Int := 86400 * 30 * 18

/-- Python compares strings lexicographically by code point; this is that
comparison on the underlying character lists. -/
def strLeB : List Char → List Char → Bool
  | [], _ => true
  | _ :: _, [] => false
  | a :: as, b :: bs =>
    if a.toNat < b.toNat then true
    else if b.toNat < a.toNat then false
    else strLeB as bs

/-- Lexicographic string comparison modelling Python's string `<=`, the order
`list.sort(key=lambda x: x["created_at"])` sorts by. -/
def strLe (a b : String) : Bool := strLeB a.toList b.toList

theorem strLeB_total : ∀ a b, strLeB a b = true ∨ strLeB b a = true
  | [], _ => Or.inl rfl
  | _ :: _, [] => Or.inr rfl
  | a :: as, b :: bs => by
    rcases Nat.lt_trichotomy a.toNat b.toNat with h | h | h
    · exact Or.inl (by simp [strLeB, h])
    · have hab : ¬ a.toNat < b.toNat := by omega
      have hba : ¬ b.toNat < a.toNat := by omega
      rcases strLeB_total as bs with hr | hr
      · exact Or.inl (by simp [strLeB, hab, hba, hr])
      · exact Or.inr (by simp [strLeB, hab, hba, hr])
    · exact Or.inr (by simp [strLeB, h])

theorem strLeB_trans : ∀ a b c, strLeB a b = true → strLeB b c = true →
    strLeB a c = true
  | [], _, _, _, _ => rfl
  | _ :: _, [], _, hab, _ => absurd hab (by simp [strLeB])
  | _ :: _, _ :: _, [], _, hbc => absurd hbc (by simp [strLeB])
  | a :: as, b :: bs, c :: cs, hab, hbc => by
    rcases Nat.lt_trichotomy a.toNat b.toNat with h1 | h1 | h1
    · rcases Nat.lt_trichotomy b.toNat c.toNat with h2 | h2 | h2
      · have hac : a.toNat < c.toNat := Nat.lt_trans h1 h2
        simp [strLeB, hac]
      · have hac : a.toNat < c.toNat := h2 ▸ h1
        simp [strLeB, hac]
      · have hx : ¬ b.toNat < c.toNat := by omega
        simp [strLeB, hx, h2] at hbc
    · rcases Nat.lt_trichotomy b.toNat c.toNat with h2 | h2 | h2
      · have hac : a.toNat < c.toNat := h1 ▸ h2
        simp [strLeB, hac]
      · have hab1 : strLeB as bs = true := by
          have hx : ¬ a.toNat < b.toNat := by omega
          have hy : ¬ b.toNat < a.toNat := by omega
          simpa [strLeB, hx, hy] using hab
        have hbc1 : strLeB bs cs = true := by
          have hx : ¬ b.toNat < c.toNat := by omega
          have hy : ¬ c.toNat < b.toNat := by omega
          simpa [strLeB, hx, hy] using hbc
        have hx : ¬ a.toNat < c.toNat := by omega
        have hy : ¬ c.toNat < a.toNat := by omega
        simpa [strLeB, hx, hy] using strLeB_trans as bs cs hab1 hbc1
      · have hx : ¬ b.toNat < c.toNat := by omega
        simp [strLeB, hx, h2] at hbc
    · have hx : ¬ a.toNat < b.toNat := by omega
      simp [strLeB, hx, h1] at hab

/-- Descending comparison on the raw `created_at` strings, as performed by
`sort(key=lambda x: x["created_at"], reverse=True)`. -/
def invDesc : Invoice → Invoice → Prop := fun a b =>
  strLe b.created_at a.created_at = true

/-- Ascending comparison on the raw `created_at` strings, as performed by
`sort(key=lambda x: x["created_at"])`. -/
def invAsc : Invoice → Invoice → Prop := fun a b =>
  strLe a.created_at b.created_at = true

instance : DecidableRel invDesc := fun a b =>
  inferInstanceAs (Decidable (strLe b.created_at a.created_at = true))

instance : DecidableRel invAsc := fun a b =>
  inferInstanceAs (Decidable (strLe a.created_at b.created_at = true))

instance : IsTotal Invoice invDesc :=
  ⟨fun a b => strLeB_total b.created_at.toList a.created_at.toList⟩

instance : IsTrans Invoice invDesc :=
  ⟨fun _ _ _ h1 h2 => strLeB_trans _ _ _ h2 h1⟩

instance : IsTotal Invoice invAsc :=
  ⟨fun a b => strLeB_total a.created_at.toList b.created_at.toList⟩

instance : IsTrans Invoice invAsc :=
  ⟨fun _ _ _ h1 h2 => strLeB_trans _ _ _ h1 h2⟩

/-- Python's `list.sort` is stable, so it agrees with stable insertion sort. -/
def sortDesc (l : List Invoice) : List Invoice := List.insertionSort invDesc l

/-- Ascending stable sort used for `invoices/all.json`. -/
def sortAsc (l : List Invoice) : List Invoice := List.insertionSort invAsc l

/-- The invoice-grouping loop of `setup_cache` (lines 110-122): it carries the
variable `created_at`, which Python only reassigns inside the branch handling a
contact's first invoice, across iterations. The accumulators are the
`cache["invoices"]` dict, the `newest` dict, and the carried `created_at`
value (`none` before the first assignment, where Python would raise
`NameError`). -/
def buildInvoices : List Invoice → List (PKey × List Invoice) → List (PKey × Int) →
    Option Int → Except String (List (PKey × List Invoice) × List (PKey × Int))
  | [], inv, nw, _ => .ok (inv, nw)
  | i :: rest, inv, nw, carried =>
    match alGet inv i.contact_id with
    | none =>
      match parseTs i.created_at with
      | none => .error "ValueError"
      | some ca =>
        buildInvoices rest (alSet inv i.contact_id [i]) (alSet nw i.contact_id ca) (some ca)
    | some l =>
      match carried with
      | none => .error "NameError"
      | some ca =>
        let inv1 := alSet inv i.contact_id (l ++ [i])
        let nw1 := match alGet nw i.contact_id with
          | some old => if ca > old then alSet nw i.contact_id ca else nw
          | none => nw
        buildInvoices rest inv1 nw1 (some ca)

/-- The trimming loop of `setup_cache` (lines 125-136): keep a contact's list
exactly when its `newest` entry is strictly more recent than `now` minus the
18-month window. -/
def trimInvoices (inv : List (PKey × List Invoice)) (nw : List (PKey × Int))
    (now : Int) : List (PKey × List Invoice) :=
  inv.filter fun p =>
    match alGet nw p.1 with
    | some t => decide (t > now - trimWindow)
    | none => false

/-- Model of `setup_cache` (tidyhq.py lines 82-147). The five raw network
responses are passed in as parameters (the Remote Client is the oracle), and
`now` is the clock reading. The invoice post-processing (grouping, trimming,
per-contact descending sort) is translated line by line; the resulting dict is
stamped with `time = now`. Raises (returns `.error`) where `strptime` would. -/
def setup_cache (contacts : List Contact) (groups : List (PKey × Group))
    (memberships : List MembershipRec) (rawInvoices : List Invoice) (org : Org)
    (now : Int) : Except String Snapshot :=
  match buildInvoices rawInvoices [] [] none with
  | .error e => .error e
  | .ok (inv, nw) =>
    let cleaned := trimInvoices inv nw now
    let sorted := cleaned.map fun p => (p.1, sortDesc p.2)
    .ok { contacts := contacts, groups := groups, memberships := memberships,
          invoices := sorted, org := org, time := now }

/-- State of the persisted `cache.json` file when `fresh_cache` opens it:
missing (`FileNotFoundError`), unparseable (`json.decoder.JSONDecodeError`),
or a valid snapshot. -/
inductive FileState where
  | missing
  | invalid
  | valid (s : Snapshot)
deriving DecidableEq, Repr

/-- Result of a `fresh_cache` call: the returned snapshot together with how
many times `setup_cache` was invoked along the way. -/
structure FreshResult where
  snap : Snapshot
  rebuilds : Nat
deriving DecidableEq, Repr

/-- The staleness test `cache["time"] < datetime.now().timestamp() - cache_expiry`. -/
def staleAt (t now expiry : Int) : Bool := decide (t < now - expiry)

/-- The tail of `fresh_cache` (tidyhq.py lines 176-198): load the cache file;
on `FileNotFoundError` or `JSONDecodeError` rebuild via `setup_cache`; if the
loaded file is itself stale (or `force` is set) rebuild; otherwise return the
file contents. `built` is the snapshot the `setup_cache` rebuild would return. -/
def loadFromFile (expiry : Int) (force : Bool) (file : FileState) (built : Snapshot)
    (now : Int) : FreshResult :=
  match file with
  | .missing => ⟨built, 1⟩
  | .invalid => ⟨built, 1⟩
  | .valid s => if staleAt s.time now expiry || force then ⟨built, 1⟩ else ⟨s, 0⟩

/-- Model of `fresh_cache` (tidyhq.py lines 150-198). `provided` is the
optional in-memory cache argument (`none` also covers Python's falsy empty
dict), `file` the state of `cache.json`, `built` the oracle result of a
`setup_cache` rebuild, and `now` the instant the call starts. -/
def fresh_cache (provided : Option Snapshot) (expiry : Int) (force : Bool)
    (file : FileState) (built : Snapshot) (now : Int) : FreshResult :=
  match provided with
  | some c =>
    if staleAt c.time now expiry || force then loadFromFile expiry force file built now
    else ⟨c, 0⟩
  | none => loadFromFile expiry force file built now

/-- Python truthiness of an optional string: `None` and `""` are falsy. -/
def truthyOS (o : Option String) : Bool := !(o.getD "").isEmpty

/-- The field-id resolution at the top of `get_custom_field` (lines 417-420):
a truthy `field_map_name` overwrites `field_id` with the config lookup
`config["tidyhq"]["ids"].get(field_map_name, None)`. -/
def resolveFieldId (config : Config) (field_id field_map_name : Option String) :
    Option String :=
  if truthyOS field_map_name then alGet config.ids (field_map_name.getD "")
  else field_id

/-- Model of `get_custom_field` (tidyhq.py lines 405-449). Parameters mirror
the Python keyword arguments; `none` stands for an argument that is absent or
falsy (`cache = none` also covers the empty dict that `push_to_files` passes). -/
def get_custom_field (config : Config) (cache : Option Snapshot)
    (contact_id : Option String) (contact : Option Contact)
    (field_id : Option String) (field_map_name : Option String) :
    Option CustomField :=
  let fid := resolveFieldId config field_id field_map_name
  if !truthyOS fid then none
  else
    let found :=
      if contact.isNone && truthyOS contact_id then
        match cache with
        | none => none
        | some ch => ch.contacts.find? fun c => pkeyStr c.id = contact_id.getD ""
      else contact
    match found with
    | none => none
    | some c => c.custom_fields.find? fun f => f.id = fid.getD ""

/-- The in-place coercion `group["id"] = str(group["id"])` applied to one
group reference (tidyhq.py line 246). -/
def stringifyRef (r : GroupRef) : GroupRef := { r with id := .str (pkeyStr r.id) }

/-- A contact after `push_to_files` has string-normalized all of its group
reference ids in place. -/
def stringifyContact (c : Contact) : Contact := { c with groups := c.groups.map stringifyRef }

/-- The membership fan-out over one contact's `groups` list (tidyhq.py lines
244-249): normalize the reference id to a string, look the group up (a missing
key raises `KeyError`), create its `membership` list if absent and append the
contact's id. Returns the mutated reference list and groups dict. -/
def addRefs (cid : PKey) : List GroupRef → List (PKey × Group) →
    Except String (List GroupRef × List (PKey × Group))
  | [], gs => .ok ([], gs)
  | r :: rs, gs =>
    match alGet gs (.str (pkeyStr r.id)) with
    | none => .error "KeyError"
    | some gp =>
      match addRefs cid rs (alSet gs (.str (pkeyStr r.id))
          { gp with membership := some (gp.membership.getD [] ++ [cid]) }) with
      | .error e => .error e
      | .ok (rs1, gs1) => .ok ({ r with id := .str (pkeyStr r.id) } :: rs1, gs1)

/-- The outer membership fan-out loop of `push_to_files` over all contacts. -/
def addContacts : List Contact → List (PKey × Group) →
    Except String (List Contact × List (PKey × Group))
  | [], gs => .ok ([], gs)
  | c :: cs, gs =>
    match addRefs c.id c.groups gs with
    | .error e => .error e
    | .ok (rs1, gs1) =>
      match addContacts cs gs1 with
      | .error e => .error e
      | .ok (cs1, gs2) => .ok ({ c with groups := rs1 } :: cs1, gs2)

/-- The membership re-indexing loop of `push_to_files` (lines 311-321),
producing the by-contact and by-type dicts. -/
def buildMembershipIdx (ms : List MembershipRec) :
    List (PKey × List MembershipRec) × List (PKey × List MembershipRec) :=
  ms.foldl
    (fun acc m =>
      (alAppend acc.1 m.contact_id m, alAppend acc.2 m.membership_level_id m))
    ([], [])

/-- Entry of `maps/tidyhq/all.json`: the slack and taiga ids linked to a
contact (`none` models JSON `null`). -/
structure TidyEntry where
  slack : Option String := none
  taiga : Option String := none
deriving DecidableEq, Repr

/-- Entry of `maps/slack/all.json`. -/
structure SlackEntry where
  tidyhq : String := ""
  taiga : Option String := none
deriving DecidableEq, Repr

/-- Entry of `maps/taiga/all.json`. -/
structure TaigaEntry where
  tidyhq : String := ""
  slack : Option String := none
deriving DecidableEq, Repr

/-- The contact-mapping loop of `push_to_files` (lines 356-379): resolve the
`slack` and `taiga` custom fields of each contact (extracting `.value`), and
populate the three identity maps; the slack/taiga-keyed maps only gain an
entry when the respective value is truthy. -/
def buildMaps (cfg : Config) (contacts : List Contact) :
    List (String × TidyEntry) × List (String × SlackEntry) × List (String × TaigaEntry) :=
  contacts.foldl
    (fun acc c =>
      let tid := pkeyStr c.id
      let slack := (get_custom_field cfg none none (some c) none (some "slack")).map
        fun f => f.value
      let taiga := (get_custom_field cfg none none (some c) none (some "taiga")).map
        fun f => f.value
      let mt := alSet acc.1 tid { slack := slack, taiga := taiga }
      let ms := if truthyOS slack then alSet acc.2.1 (slack.getD "") { tidyhq := tid, taiga := taiga }
                else acc.2.1
      let mg := if truthyOS taiga then alSet acc.2.2 (taiga.getD "") { tidyhq := tid, slack := slack }
                else acc.2.2
      (mt, ms, mg))
    ([], [], [])

/-- Everything `push_to_files` writes below the output directory. Per-entity
files (`contacts/{id}.json`, `groups/{id}.json`, ...) are exactly the entries
of the corresponding aggregate dict, so the tree is determined by these
fields. -/
structure Output where
  contactsSorted : List (PKey × Contact)
  groupsOut : List (PKey × Group)
  invoicesSorted : List (PKey × List Invoice)
  allInvoices : List Invoice
  allInvoicesSorted : List (PKey × Invoice)
  membershipsByContact : List (PKey × List MembershipRec)
  membershipsByType : List (PKey × List MembershipRec)
  org : Org
  mapTidyhq : List (String × TidyEntry)
  mapSlack : List (String × SlackEntry)
  mapTaiga : List (String × TaigaEntry)
deriving DecidableEq, Repr

/-- Model of `push_to_files` (tidyhq.py lines 201-402). Returns the snapshot
as it stands after the call (the membership fan-out mutates the shared
`contacts` and `groups` structures in place) together with the written output
tree, or `.error "KeyError"` when a contact references a group id that is not
a key of the groups dict. `contacts/sorted.json` is written before the
fan-out runs, so it shows the not-yet-normalized reference ids; the maps loop
runs after it, so it sees the mutated contacts. -/
def pushToFiles (s : Snapshot) (cfg : Config) : Except String (Snapshot × Output) :=
  let contactsSorted := s.contacts.foldl (fun d c => alSet d c.id c) []
  match addContacts s.contacts s.groups with
  | .error e => .error e
  | .ok (contacts1, groups1) =>
    let allInv := sortAsc ((s.invoices.map fun p => p.2).foldr (· ++ ·) [])
    let allSorted := allInv.foldl (fun d i => alSet d i.id i) []
    let idx := buildMembershipIdx s.memberships
    let maps := buildMaps cfg contacts1
    .ok ({ s with contacts := contacts1, groups := groups1 },
      { contactsSorted := contactsSorted, groupsOut := groups1,
        invoicesSorted := s.invoices, allInvoices := allInv,
        allInvoicesSorted := allSorted, membershipsByContact := idx.1,
        membershipsByType := idx.2, org := s.org, mapTidyhq := maps.1,
        mapSlack := maps.2.1, mapTaiga := maps.2.2 })

/-- JSON object keys are strings: `json.dump` renders an integer key as its
decimal string, which `json.load` then returns as a string key. -/
def stringifyKey : PKey → PKey
  | .int n => .str (toString n)
  | .str s => .str s

/-- True for keys that already are strings. -/
def isStrKey : PKey → Bool
  | .str _ => true
  | .int _ => false

/-- Effect of persisting a snapshot with `json.dump` and reloading it with
`json.load` (the `cache.json` round trip): the top-level keys of the `groups`
and `invoices` dicts are string-coerced, everything else survives unchanged. -/
def roundtripSnapshot (s : Snapshot) : Snapshot :=
  { s with groups := s.groups.map fun p => (stringifyKey p.1, p.2),
           invoices := s.invoices.map fun p => (stringifyKey p.1, p.2) }

/-- Predicate: every top-level groups/invoices key of the snapshot is already
a string, so the `cache.json` round trip is the identity. -/
def allStrKeys (s : Snapshot) : Bool :=
  (s.groups.all fun p => isStrKey p.1) && (s.invoices.all fun p => isStrKey p.1)

/-- Whether the branch of `fresh_cache` that consults the cache file performs
a rebuild: yes when the file is missing or unparseable, or when its snapshot
is stale, or when `force` is set. -/
def fileTriggers (expiry : Int) (force : Bool) (file : FileState) (now : Int) : Bool :=
  match file with
  | .missing => true
  | .invalid => true
  | .valid sf => staleAt sf.time now expiry || force

/-- One membership-append step at the level of a whole group value: append
the listed contact ids to the group's membership list (creating it when the
appended list is nonempty), leave the group untouched otherwise. -/
def memAppend (l : List PKey) (gp : Group) : Group :=
  if l.isEmpty then gp else { gp with membership := some (gp.membership.getD [] ++ l) }

/-- Contact ids appended to the group stored under key `k` while the fan-out
processes the reference list `rs` of the contact `cid`: one copy of `cid` per
reference whose string-normalized id is `k`. -/
def refApps (cid : PKey) (k : PKey) (rs : List GroupRef) : List PKey :=
  (rs.filter fun r => PKey.str (pkeyStr r.id) == k).map fun _ => cid

/-- Contact ids appended to the group stored under key `k` over the whole
contact list, in contact iteration order. -/
def contactApps (k : PKey) : List Contact → List PKey
  | [] => []
  | c :: cs => refApps c.id k c.groups ++ contactApps k cs

/-! Association-list lemmas. -/

theorem alGet_alSet {K V : Type} [DecidableEq K] (d : List (K × V)) (k k1 : K) (v : V) :
    alGet (alSet d k v) k1 = if k = k1 then some v else alGet d k1 := by
  induction d with
  | nil => by_cases h : k = k1 <;> simp [alSet, alGet, h]
  | cons p t ih =>
    obtain ⟨k0, v0⟩ := p
    by_cases h0 : k0 = k
    · subst h0
      by_cases h1 : k0 = k1 <;> simp [alSet, alGet, h1]
    · by_cases h1 : k0 = k1
      · subst h1
        have hne : ¬ k = k0 := fun hh => h0 hh.symm
        simp [alSet, alGet, h0, hne]
      · simp [alSet, alGet, h0, h1, ih]

theorem alGet_isSome_iff {K V : Type} [DecidableEq K] (d : List (K × V)) (k : K) :
    (alGet d k).isSome = true ↔ k ∈ d.map Prod.fst := by
  induction d with
  | nil => simp [alGet]
  | cons p t ih =>
    obtain ⟨k0, v0⟩ := p
    by_cases h : k0 = k
    · subst h; simp [alGet]
    · simp only [alGet, if_neg h, List.map_cons, List.mem_cons]
      rw [ih]
      constructor
      · exact Or.inr
      · rintro (hk | hk)
        · exact absurd hk.symm h
        · exact hk

theorem alSet_fst_of_mem {K V : Type} [DecidableEq K] (d : List (K × V)) (k : K) (v : V)
    (h : (alGet d k).isSome = true) :
    (alSet d k v).map Prod.fst = d.map Prod.fst := by
  induction d with
  | nil => simp [alGet] at h
  | cons p t ih =>
    obtain ⟨k0, v0⟩ := p
    by_cases h0 : k0 = k
    · simp [alSet, h0]
    · simp only [alGet, h0, if_false] at h
      simp [alSet, h0, ih h]

theorem alGet_mem {K V : Type} [DecidableEq K] {d : List (K × V)} {k : K} {v : V}
    (h : alGet d k = some v) : (k, v) ∈ d := by
  induction d with
  | nil => simp [alGet] at h
  | cons p t ih =>
    obtain ⟨k0, v0⟩ := p
    by_cases h0 : k0 = k
    · subst h0
      simp [alGet] at h
      subst h
      exact List.mem_cons_self _ _
    · simp only [alGet, h0, if_false] at h
      exact List.mem_cons_of_mem _ (ih h)

theorem alGet_map_keyfn {K V W : Type} [DecidableEq K] (d : List (K × V))
    (f : K → V → W) (k : K) :
    alGet (d.map fun p => (p.1, f p.1 p.2)) k = (alGet d k).map (f k) := by
  induction d with
  | nil => simp [alGet]
  | cons p t ih =>
    obtain ⟨k0, v0⟩ := p
    by_cases h : k0 = k
    · subst h; simp [alGet]
    · simp [alGet, h, ih]

theorem map_if_eq_self {K V : Type} [DecidableEq K] (t : List (K × V)) (k : K) (f : V → V)
    (h : ∀ p ∈ t, p.1 ≠ k) :
    (t.map fun p => if p.1 = k then (p.1, f p.2) else p) = t := by
  induction t with
  | nil => rfl
  | cons q t ih =>
    have hq : q.1 ≠ k := h q (List.mem_cons_self q t)
    simp only [List.map_cons, if_neg hq]
    rw [ih fun p hp => h p (List.mem_cons_of_mem _ hp)]

theorem alSet_eq_map {K V : Type} [DecidableEq K] (d : List (K × V)) (k : K)
    (f : V → V) (w : V) (hnd : (d.map Prod.fst).Nodup) (h : alGet d k = some w) :
    alSet d k (f w) = d.map fun p => if p.1 = k then (p.1, f p.2) else p := by
  induction d with
  | nil => simp [alGet] at h
  | cons p t ih =>
    obtain ⟨k0, v0⟩ := p
    simp only [List.map_cons, List.nodup_cons] at hnd
    by_cases h0 : k0 = k
    · subst h0
      simp [alGet] at h
      subst h
      have hnk : ∀ q ∈ t, q.1 ≠ k0 := by
        intro q hq hneq
        exact hnd.1 (hneq ▸ List.mem_map_of_mem Prod.fst hq)
      simp [alSet, map_if_eq_self t k0 f hnk]
    · simp only [alGet, h0, if_false] at h
      simp only [alSet, h0, if_false, List.map_cons, if_neg h0]
      rw [ih hnd.2 h]

/-! Lemmas about the membership fan-out. -/

theorem memAppend_append (l1 l2 : List PKey) (gp : Group) :
    memAppend l2 (memAppend l1 gp) = memAppend (l1 ++ l2) gp := by
  by_cases h1 : l1 = []
  · subst h1; simp [memAppend]
  · by_cases h2 : l2 = []
    · subst h2
      simp [memAppend, List.isEmpty_iff, h1]
    · simp [memAppend, List.isEmpty_iff, h1, h2]

theorem refApps_nil (cid k : PKey) : refApps cid k [] = [] := rfl

theorem refApps_cons_eq (cid k : PKey) (r : GroupRef) (rs : List GroupRef)
    (h : PKey.str (pkeyStr r.id) = k) :
    refApps cid k (r :: rs) = cid :: refApps cid k rs := by
  simp [refApps, List.filter_cons, h]

theorem refApps_cons_ne (cid k : PKey) (r : GroupRef) (rs : List GroupRef)
    (h : ¬ PKey.str (pkeyStr r.id) = k) :
    refApps cid k (r :: rs) = refApps cid k rs := by
  simp [refApps, List.filter_cons, h]

theorem map_memAppend_nil (gs : List (PKey × Group)) (g : PKey × Group → List PKey)
    (hg : ∀ p ∈ gs, g p = []) :
    (gs.map fun p => (p.1, memAppend (g p) p.2)) = gs := by
  induction gs with
  | nil => rfl
  | cons p t ih =>
    have hp : memAppend (g p) p.2 = p.2 := by
      simp [memAppend, hg p (List.mem_cons_self p t)]
    simp only [List.map_cons, hp, Prod.mk.eta]
    rw [ih fun q hq => hg q (List.mem_cons_of_mem _ hq)]

theorem addRefs_char (cid : PKey) (rs : List GroupRef) :
    ∀ gs rs1 gs1, (gs.map Prod.fst).Nodup → addRefs cid rs gs = .ok (rs1, gs1) →
      rs1 = rs.map stringifyRef ∧
      gs1 = gs.map fun p => (p.1, memAppend (refApps cid p.1 rs) p.2) := by
  induction rs with
  | nil =>
    intro gs rs1 gs1 _ h
    simp only [addRefs, Except.ok.injEq, Prod.mk.injEq] at h
    obtain ⟨h1, h2⟩ := h
    subst h1
    subst h2
    exact ⟨rfl, (map_memAppend_nil gs (fun p => refApps cid p.1 []) fun p _ => rfl).symm⟩
  | cons r rs ih =>
    intro gs rs1 gs1 hnd h
    simp only [addRefs] at h
    split at h
    · exact absurd h (by simp)
    · rename_i gp hg
      split at h
      · exact absurd h (by simp)
      · rename_i rs2 gs2 hrec
        simp only [Except.ok.injEq, Prod.mk.injEq] at h
        obtain ⟨h1, h2⟩ := h
        subst h1
        subst h2
        have hset : alSet gs (PKey.str (pkeyStr r.id))
            { gp with membership := some (gp.membership.getD [] ++ [cid]) } =
            gs.map fun p => if p.1 = PKey.str (pkeyStr r.id) then
              (p.1, memAppend [cid] p.2) else p :=
          alSet_eq_map gs (PKey.str (pkeyStr r.id)) (memAppend [cid]) gp hnd hg
        have hnd1 : ((alSet gs (PKey.str (pkeyStr r.id))
            { gp with membership := some (gp.membership.getD [] ++ [cid]) }).map
              Prod.fst).Nodup := by
          rw [alSet_fst_of_mem _ _ _ (by rw [hg]; rfl)]
          exact hnd
        obtain ⟨hA, hB⟩ := ih _ _ _ hnd1 hrec
        constructor
        · rw [hA]; rfl
        · rw [hB, hset, List.map_map]
          apply List.map_congr_left
          intro p _
          by_cases hpk : p.1 = PKey.str (pkeyStr r.id)
          · simp only [Function.comp, if_pos hpk]
            rw [refApps_cons_eq cid p.1 r rs hpk.symm]
            simp [memAppend_append]
          · simp only [Function.comp, if_neg hpk]
            rw [refApps_cons_ne cid p.1 r rs fun hh => hpk hh.symm]

theorem addContacts_char (cs : List Contact) :
    ∀ gs cs1 gs1, (gs.map Prod.fst).Nodup → addContacts cs gs = .ok (cs1, gs1) →
      cs1 = cs.map stringifyContact ∧
      gs1 = gs.map fun p => (p.1, memAppend (contactApps p.1 cs) p.2) := by
  induction cs with
  | nil =>
    intro gs cs1 gs1 _ h
    simp only [addContacts, Except.ok.injEq, Prod.mk.injEq] at h
    obtain ⟨h1, h2⟩ := h
    subst h1
    subst h2
    exact ⟨rfl, (map_memAppend_nil gs (fun p => contactApps p.1 []) fun p _ => rfl).symm⟩
  | cons c cs ih =>
    intro gs cs1 gs1 hnd h
    simp only [addContacts] at h
    split at h
    · exact absurd h (by simp)
    · rename_i rs1 gsA hr
      split at h
      · exact absurd h (by simp)
      · rename_i cs2 gs2 hrec
        simp only [Except.ok.injEq, Prod.mk.injEq] at h
        obtain ⟨h1, h2⟩ := h
        subst h1
        subst h2
        obtain ⟨hA, hB⟩ := addRefs_char c.id c.groups gs rs1 gsA hnd hr
        have hndA : (gsA.map Prod.fst).Nodup := by
          rw [hB, List.map_map]
          have hfst : (Prod.fst ∘ fun p : PKey × Group =>
              (p.1, memAppend (refApps c.id p.1 c.groups) p.2)) = Prod.fst := by
            funext p; rfl
          rw [hfst]
          exact hnd
        obtain ⟨hC, hD⟩ := ih _ _ _ hndA hrec
        constructor
        · rw [hC, hA]; rfl
        · rw [hD, hB, List.map_map]
          apply List.map_congr_left
          intro p _
          simp only [Function.comp]
          rw [memAppend_append]
          rfl

theorem addRefs_fst (cid : PKey) (rs : List GroupRef) :
    ∀ gs rs1 gs1, addRefs cid rs gs = .ok (rs1, gs1) →
      gs1.map Prod.fst = gs.map Prod.fst := by
  induction rs with
  | nil =>
    intro gs rs1 gs1 h
    simp only [addRefs, Except.ok.injEq, Prod.mk.injEq] at h
    rw [← h.2]
  | cons r rs ih =>
    intro gs rs1 gs1 h
    simp only [addRefs] at h
    split at h
    · exact absurd h (by simp)
    · rename_i gp hg
      split at h
      · exact absurd h (by simp)
      · rename_i rs2 gs2 hrec
        simp only [Except.ok.injEq, Prod.mk.injEq] at h
        rw [← h.2, ih _ _ _ hrec,
          alSet_fst_of_mem _ _ _ (by rw [hg]; rfl)]

theorem bool_eq_of_iff {a b : Bool} (h : a = true ↔ b = true) : a = b := by
  cases a <;> cases b <;> simp_all

theorem addRefs_ok_iff (cid : PKey) (rs : List GroupRef) :
    ∀ gs, (∃ o, addRefs cid rs gs = .ok o) ↔
      ∀ r ∈ rs, (alGet gs (.str (pkeyStr r.id))).isSome = true := by
  induction rs with
  | nil => intro gs; simp [addRefs]
  | cons r rs ih =>
    intro gs
    cases hg : alGet gs (PKey.str (pkeyStr r.id)) with
    | none =>
      constructor
      · rintro ⟨o, ho⟩
        simp only [addRefs, hg] at ho
        exact absurd ho (by simp)
      · intro hall
        have := hall r (List.mem_cons_self r rs)
        rw [hg] at this
        exact absurd this (by simp)
    | some gp =>
      have hkeys : ∀ k, (alGet (alSet gs (PKey.str (pkeyStr r.id))
          { gp with membership := some (gp.membership.getD [] ++ [cid]) }) k).isSome =
          (alGet gs k).isSome := by
        intro k
        rw [alGet_alSet]
        by_cases hk : PKey.str (pkeyStr r.id) = k
        · rw [if_pos hk, ← hk, hg]; rfl
        · rw [if_neg hk]
      constructor
      · rintro ⟨o, ho⟩ q hq
        simp only [addRefs, hg] at ho
        rcases List.mem_cons.mp hq with hq1 | hq2
        · rw [hq1, hg]; rfl
        · split at ho
          · exact absurd ho (by simp)
          · rename_i rs2 gs2 hrec
            have hsome := (ih _).mp ⟨_, hrec⟩ q hq2
            rw [hkeys] at hsome
            exact hsome
      · intro hall
        obtain ⟨o, ho⟩ := (ih (alSet gs (PKey.str (pkeyStr r.id))
            { gp with membership := some (gp.membership.getD [] ++ [cid]) })).mpr
          (fun q hq => by
            rw [hkeys]
            exact hall q (List.mem_cons_of_mem _ hq))
        obtain ⟨rs2, gs2⟩ := o
        exact ⟨({ r with id := PKey.str (pkeyStr r.id) } :: rs2, gs2),
          by simp only [addRefs, hg, ho]⟩

theorem addContacts_ok_iff (cs : List Contact) :
    ∀ gs, (∃ o, addContacts cs gs = .ok o) ↔
      ∀ c ∈ cs, ∀ r ∈ c.groups, (alGet gs (.str (pkeyStr r.id))).isSome = true := by
  induction cs with
  | nil => intro gs; simp [addContacts]
  | cons c cs ih =>
    intro gs
    cases hr : addRefs c.id c.groups gs with
    | error e =>
      constructor
      · rintro ⟨o, ho⟩
        simp only [addContacts, hr] at ho
        exact absurd ho (by simp)
      · intro hall
        obtain ⟨o, ho⟩ := (addRefs_ok_iff c.id c.groups gs).mpr
          (hall c (List.mem_cons_self c cs))
        rw [hr] at ho
        exact absurd ho (by simp)
    | ok pr =>
      obtain ⟨rs1, gsA⟩ := pr
      have hkeys : ∀ k, (alGet gsA k).isSome = (alGet gs k).isSome := by
        intro k
        apply bool_eq_of_iff
        rw [alGet_isSome_iff, alGet_isSome_iff, addRefs_fst c.id c.groups gs rs1 gsA hr]
      constructor
      · rintro ⟨o, ho⟩ q hq
        simp only [addContacts, hr] at ho
        rcases List.mem_cons.mp hq with hq1 | hq2
        · intro r hrr
          exact (addRefs_ok_iff c.id c.groups gs).mp ⟨_, hr⟩ r (hq1 ▸ hrr)
        · intro r hrr
          split at ho
          · exact absurd ho (by simp)
          · rename_i cs2 gs2 hrec
            have hsome := (ih _).mp ⟨_, hrec⟩ q hq2 r hrr
            rw [hkeys] at hsome
            exact hsome
      · intro hall
        obtain ⟨o, ho⟩ := (ih gsA).mpr fun q hq r hrr => by
          rw [hkeys]
          exact hall q (List.mem_cons_of_mem _ hq) r hrr
        obtain ⟨cs2, gs2⟩ := o
        exact ⟨({ c with groups := rs1 } :: cs2, gs2),
          by simp only [addContacts, hr, ho]⟩

theorem addRefs_error (cid : PKey) (rs : List GroupRef) :
    ∀ gs e, addRefs cid rs gs = .error e → e = "KeyError" := by
  induction rs with
  | nil => intro gs e h; simp [addRefs] at h
  | cons r rs ih =>
    intro gs e h
    simp only [addRefs] at h
    split at h
    · simp only [Except.error.injEq] at h
      exact h.symm
    · rename_i gp hg
      split at h
      · rename_i e1 hrec
        simp only [Except.error.injEq] at h
        exact h ▸ ih _ _ hrec
      · exact absurd h (by simp)

theorem addContacts_error (cs : List Contact) :
    ∀ gs e, addContacts cs gs = .error e → e = "KeyError" := by
  induction cs with
  | nil => intro gs e h; simp [addContacts] at h
  | cons c cs ih =>
    intro gs e h
    simp only [addContacts] at h
    split at h
    · rename_i e1 hr
      simp only [Except.error.injEq] at h
      exact h ▸ addRefs_error c.id c.groups gs e1 hr
    · rename_i rs1 gsA hr
      split at h
      · rename_i e1 hrec
        simp only [Except.error.injEq] at h
        exact h ▸ ih _ _ hrec
      · exact absurd h (by simp)

/-! Lemmas about the cache-file round trip. -/

theorem stringify_map_eq_self {V : Type} (l : List (PKey × V)) :
    (l.map fun p => (stringifyKey p.1, p.2)) = l ↔ (l.all fun p => isStrKey p.1) = true := by
  induction l with
  | nil => simp
  | cons p t ih =>
    obtain ⟨k, v⟩ := p
    simp only [List.map_cons, List.all_cons, List.cons.injEq, Prod.mk.injEq, and_true,
      Bool.and_eq_true, ih]
    cases k with
    | int n => simp [stringifyKey, isStrKey]
    | str a => simp [stringifyKey, isStrKey]

theorem roundtrip_eq_iff (s : Snapshot) :
    roundtripSnapshot s = s ↔ allStrKeys s = true := by
  cases s with
  | mk contacts groups memberships invoices org time =>
    simp only [roundtripSnapshot, allStrKeys, Snapshot.mk.injEq, Bool.and_eq_true,
      stringify_map_eq_self, true_and, and_true]

theorem alGet_map_sortDesc (d : List (PKey × List Invoice)) (k : PKey) :
    alGet (d.map fun p => (p.1, sortDesc p.2)) k = (alGet d k).map sortDesc :=
  alGet_map_keyfn d (fun _ v => sortDesc v) k

theorem alGet_map_memAppend (d : List (PKey × Group)) (cs : List Contact) (k : PKey) :
    alGet (d.map fun p => (p.1, memAppend (contactApps p.1 cs) p.2)) k =
      (alGet d k).map (memAppend (contactApps k cs)) :=
  alGet_map_keyfn d (fun k1 v => memAppend (contactApps k1 cs) v) k

theorem memAppend_membership_of_none (l : List PKey) (gp : Group)
    (h : gp.membership = none) :
    (memAppend l gp).membership = if l.isEmpty then none else some l := by
  by_cases hl : l.isEmpty = true
  · simp [memAppend, hl, h]
  · simp [memAppend, hl, h]

theorem stringifyRef_id (r : GroupRef) (h : isStrKey r.id = true) : stringifyRef r = r := by
  cases r with
  | mk rid =>
    cases rid with
    | int n => simp [isStrKey] at h
    | str a => rfl

theorem stringifyContact_id (c : Contact) (h : ∀ r ∈ c.groups, isStrKey r.id = true) :
    stringifyContact c = c := by
  have hg : c.groups.map stringifyRef = c.groups := by
    have hid : c.groups.map stringifyRef = c.groups.map id :=
      List.map_congr_left fun r hr => stringifyRef_id r (h r hr)
    rw [hid, List.map_id]
  unfold stringifyContact
  rw [hg]

theorem map_stringifyContact_id (cs : List Contact)
    (h : ∀ c ∈ cs, ∀ r ∈ c.groups, isStrKey r.id = true) :
    cs.map stringifyContact = cs := by
  have hid : cs.map stringifyContact = cs.map id :=
    List.map_congr_left fun c hc => stringifyContact_id c (h c hc)
  rw [hid, List.map_id]

theorem memAppend_twice_of_none (l : List PKey) (gp : Group) (h : gp.membership = none) :
    memAppend l (memAppend l gp) =
      { memAppend l gp with membership := (memAppend l gp).membership.map fun x => x ++ x } := by
  cases gp with
  | mk mem other =>
    have hm : mem = none := h
    subst hm
    by_cases hl : l.isEmpty = true
    · have hl1 : l = [] := by simpa using hl
      subst hl1
      simp [memAppend]
    · simp [memAppend, hl]

/-! Concrete data used by the claim theorems, counterexamples and witnesses. -/

/-- Empty configuration (no slack/taiga field ids). -/
def cfg0 : Config := {}

/-- Group record with no fields of interest. -/
def grpA : Group := {}

/-- Snapshot with empty collections and the given retrieval time. -/
def snapAt (t : Int) : Snapshot :=
  { contacts := [], groups := [], memberships := [], invoices := [], org := {}, time := t }

/-- Invoice of contact 1 dated 600 days before `nowC1`. -/
def iA1 : Invoice :=
  { id := .int 901, contact_id := .int 1, created_at := "2022-05-10T00:00:00+0000" }

/-- Invoice of contact 2 dated 10 days before `nowC1`. -/
def iB : Invoice :=
  { id := .int 902, contact_id := .int 2, created_at := "2023-12-21T00:00:00+0000" }

/-- Invoice of contact 1 dated 700 days before `nowC1`. -/
def iA2 : Invoice :=
  { id := .int 903, contact_id := .int 1, created_at := "2022-01-29T00:00:00+0000" }

/-- The instant 2023-12-31T00:00:00+0000. -/
def nowC1 : Int := 1703980800

/-- Invoice at 2022-12-30T10:00:00 UTC, with zero offset. -/
def invX : Invoice :=
  { id := .int 101, contact_id := .int 1, created_at := "2022-12-30T10:00:00+0000" }

/-- Invoice at 2022-12-30T08:36:35 UTC, written with a +0800 offset; its string
is lexicographically larger than that of `invX` although it is chronologically
earlier. -/
def invY : Invoice :=
  { id := .int 102, contact_id := .int 1, created_at := "2022-12-30T16:36:35+0800" }

/-- The snapshot `setup_cache` builds from `[invX, invY]` at time 1672500000. -/
def sC6 : Snapshot :=
  { contacts := [], groups := [], memberships := [], invoices := [(.int 1, [invY, invX])],
    org := {}, time := 1672500000 }

/-- Invoice used by the round-trip claim. -/
def invC4 : Invoice :=
  { id := .int 7, contact_id := .int 3, created_at := "2023-12-21T00:00:00+0000" }

/-- The snapshot `setup_cache` builds from one group keyed by the integer 5 and
one invoice of contact 3, at time `nowC1`. -/
def s4 : Snapshot :=
  { contacts := [], groups := [(.int 5, grpA)], memberships := [],
    invoices := [(.int 3, [invC4])], org := {}, time := 1703980800 }

/-- Contact 1, member of group "5" (string-keyed reference). -/
def cR1 : Contact := { id := .int 1, groups := [⟨.str "5"⟩], custom_fields := [] }

/-- Contact 2, member of group "5" (string-keyed reference). -/
def cR2 : Contact := { id := .int 2, groups := [⟨.str "5"⟩], custom_fields := [] }

/-- Snapshot with two contacts referencing the string-keyed group "5". -/
def sRepeat : Snapshot :=
  { contacts := [cR1, cR2], groups := [(.str "5", grpA)], memberships := [],
    invoices := [], org := {}, time := 0 }

/-- Snapshot state after the first `push_to_files` run over `sRepeat`. -/
def sW1 : Snapshot :=
  { contacts := [cR1, cR2],
    groups := [(.str "5", { membership := some [.int 1, .int 2] })],
    memberships := [], invoices := [], org := {}, time := 0 }

/-- Output of the first `push_to_files` run over `sRepeat`. -/
def oW1 : Output :=
  { contactsSorted := [(.int 1, cR1), (.int 2, cR2)],
    groupsOut := [(.str "5", { membership := some [.int 1, .int 2] })],
    invoicesSorted := [], allInvoices := [], allInvoicesSorted := [],
    membershipsByContact := [], membershipsByType := [], org := {},
    mapTidyhq := [("1", {}), ("2", {})], mapSlack := [], mapTaiga := [] }

/-- Snapshot state after the second `push_to_files` run (membership doubled). -/
def sW2 : Snapshot :=
  { contacts := [cR1, cR2],
    groups := [(.str "5", { membership := some [.int 1, .int 2, .int 1, .int 2] })],
    memberships := [], invoices := [], org := {}, time := 0 }

/-- Output of the second `push_to_files` run (membership doubled). -/
def oW2 : Output :=
  { contactsSorted := [(.int 1, cR1), (.int 2, cR2)],
    groupsOut := [(.str "5", { membership := some [.int 1, .int 2, .int 1, .int 2] })],
    invoicesSorted := [], allInvoices := [], allInvoicesSorted := [],
    membershipsByContact := [], membershipsByType := [], org := {},
    mapTidyhq := [("1", {}), ("2", {})], mapSlack := [], mapTaiga := [] }

/-- Contact 1 whose group reference carries the integer id 5. -/
def c3W : Contact := { id := .int 1, groups := [⟨.int 5⟩], custom_fields := [] }

/-- Snapshot with an integer group reference but a string-keyed groups dict. -/
def s3W : Snapshot :=
  { contacts := [c3W], groups := [(.str "5", grpA)], memberships := [], invoices := [],
    org := {}, time := 0 }

/-- Snapshot state after `push_to_files` over `s3W`: reference id coerced to a
string and membership stored in the snapshot. -/
def sW3a : Snapshot :=
  { contacts := [{ id := .int 1, groups := [⟨.str "5"⟩], custom_fields := [] }],
    groups := [(.str "5", { membership := some [.int 1] })], memberships := [],
    invoices := [], org := {}, time := 0 }

/-- Output of `push_to_files` over `s3W`; `contacts/sorted.json` was written
before the in-place id coercion, so it still shows the integer reference. -/
def oW3a : Output :=
  { contactsSorted := [(.int 1, c3W)],
    groupsOut := [(.str "5", { membership := some [.int 1] })],
    invoicesSorted := [], allInvoices := [], allInvoicesSorted := [],
    membershipsByContact := [], membershipsByType := [], org := {},
    mapTidyhq := [("1", {})], mapSlack := [], mapTaiga := [] }

/-- Contact 1 whose groups list references group 5 twice. -/
def c7W : Contact := { id := .int 1, groups := [⟨.int 5⟩, ⟨.int 5⟩], custom_fields := [] }

/-- Snapshot with a duplicated group reference in one contact. -/
def s7 : Snapshot :=
  { contacts := [c7W], groups := [(.str "5", grpA)], memberships := [], invoices := [],
    org := {}, time := 0 }

/-- Snapshot whose groups dict is keyed by the raw integer 5, as produced by a
fresh network build, while the contact references group 5. -/
def sKE : Snapshot :=
  { contacts := [c3W], groups := [(.int 5, grpA)], memberships := [], invoices := [],
    org := {}, time := 0 }

/-- Contact with no custom fields at all. -/
def cW9 : Contact := { id := .int 9, groups := [], custom_fields := [] }

/-! Claim theorems. -/

/-- Claim C1 (code bug): the spec says `setup_cache` tracks, per contact, the
maximum parsed `created_at` of that contact's invoices and drops the contact
exactly when that maximum is older than now − 540 days, regardless of arrival
order. The code instead reassigns its `created_at` variable only when it sees
a contact's first invoice, so a later invoice of contact A is compared using
the timestamp parsed for another contact's first invoice. Here both of
contact 1's invoices (600 and 700 days old) lie outside the 540-day window,
yet with arrival order A,B,A the built snapshot retains contact 1, because
contact 2's recent timestamp is credited to contact 1. -/
theorem setup_cache_stale_contact_retained :
    (setup_cache [] [] [] [iA1, iB, iA2] {} nowC1).map (fun s =>
      ((alGet s.invoices (.int 1)).isSome, (alGet s.invoices (.int 2)).isSome)) =
      .ok (true, true) ∧
    parseTs iA1.created_at = some 1652140800 ∧
    parseTs iA2.created_at = some 1643414400 ∧
    (1652140800 : Int) ≤ nowC1 - trimWindow ∧
    (1643414400 : Int) ≤ nowC1 - trimWindow := by
  decide

/-- Claim C4 counterexample: a snapshot built by `setup_cache` keys its groups
and invoices dicts by the raw integer ids, so writing it to `cache.json` and
reloading it through `fresh_cache` (still fresh, no force) yields a snapshot
with string keys that is not structurally equal to the original. -/
theorem cache_roundtrip_not_equal :
    (setup_cache [] [(.int 5, grpA)] [] [invC4] {} nowC1).map (fun s =>
      decide ((fresh_cache none 86400 false (.valid (roundtripSnapshot s))
        (snapAt 0) nowC1).snap = s)) = .ok false := by
  decide

/-- Claim C4 (amended): for every snapshot produced by `setup_cache`, writing
it to the cache file and reloading it via `fresh_cache` while it is still
fresh returns the snapshot up to string-coercion of the top-level groups and
invoices keys (the `json.dump`/`json.load` round trip); the reload equals the
original exactly when those keys already are strings. -/
theorem cache_roundtrip_stringifies_keys (contacts : List Contact)
    (groups : List (PKey × Group)) (memberships : List MembershipRec)
    (rawInvoices : List Invoice) (org : Org) (t now expiry : Int) (built s : Snapshot)
    (hs : setup_cache contacts groups memberships rawInvoices org t = .ok s)
    (hfresh : staleAt s.time now expiry = false) :
    fresh_cache none expiry false (.valid (roundtripSnapshot s)) built now =
      ⟨roundtripSnapshot s, 0⟩ ∧
    (roundtripSnapshot s = s ↔ allStrKeys s = true) := by
  constructor
  · have ht : (roundtripSnapshot s).time = s.time := rfl
    simp [fresh_cache, loadFromFile, ht, hfresh]
  · exact roundtrip_eq_iff s

/-- Claim C4 witness: the amended round-trip theorem applied to the concrete
snapshot `s4` built by `setup_cache`. -/
theorem cache_roundtrip_stringifies_keys_witness :
    fresh_cache none 86400 false (.valid (roundtripSnapshot s4)) (snapAt 0) nowC1 =
      ⟨roundtripSnapshot s4, 0⟩ ∧
    (roundtripSnapshot s4 = s4 ↔ allStrKeys s4 = true) :=
  cache_roundtrip_stringifies_keys [] [(.int 5, grpA)] [] [invC4] {} nowC1 nowC1 86400
    (snapAt 0) s4 (by decide) (by decide)

/-- Claim C5 counterexample: a provided snapshot 120 seconds old with expiry
100 is stale in the claim's sense, but because the persisted cache file holds
a fresh snapshot, `fresh_cache` performs zero rebuilds (not exactly one) and
returns the file snapshot, whose time precedes the call's start. -/
theorem fresh_cache_stale_no_rebuild :
    (1000 : Int) - (snapAt 880).time ≥ 100 ∧
    fresh_cache (some (snapAt 880)) 100 false (.valid (snapAt 950)) (snapAt 1000) 1000 =
      ⟨snapAt 950, 0⟩ ∧
    (fresh_cache (some (snapAt 880)) 100 false (.valid (snapAt 950)) (snapAt 1000)
      1000).rebuilds ≠ 1 ∧
    (fresh_cache (some (snapAt 880)) 100 false (.valid (snapAt 950)) (snapAt 1000)
      1000).snap.time < 1000 := by
  decide

/-- Claim C5 (amended): for a provided snapshot that the code considers stale
(`time < now − expiry`, or `force`), `fresh_cache` consults the cache file:
when the file is missing, unparseable, itself stale, or `force` is set, it
performs exactly one `setup_cache` rebuild and returns the freshly built
snapshot, whose `time` is at or after the call's start (the build stamps a
later clock reading); otherwise it performs no rebuild and returns the
persisted snapshot as-is. -/
theorem fresh_cache_stale_provided_behavior (sp : Snapshot) (expiry : Int) (force : Bool)
    (file : FileState) (built : Snapshot) (now : Int)
    (hstale : (staleAt sp.time now expiry || force) = true)
    (hb : now ≤ built.time) :
    (fileTriggers expiry force file now = true →
      fresh_cache (some sp) expiry force file built now = ⟨built, 1⟩ ∧
      now ≤ (fresh_cache (some sp) expiry force file built now).snap.time) ∧
    (∀ sf, file = .valid sf → fileTriggers expiry force file now = false →
      fresh_cache (some sp) expiry force file built now = ⟨sf, 0⟩) := by
  have hfc : fresh_cache (some sp) expiry force file built now =
      loadFromFile expiry force file built now := by
    simp [fresh_cache, hstale]
  constructor
  · intro ht
    have hload : loadFromFile expiry force file built now = ⟨built, 1⟩ := by
      cases file with
      | missing => rfl
      | invalid => rfl
      | valid sf =>
        simp only [fileTriggers] at ht
        simp [loadFromFile, ht]
    rw [hfc, hload]
    exact ⟨rfl, hb⟩
  · intro sf hsf hft
    subst hsf
    simp only [fileTriggers] at hft
    rw [hfc]
    simp [loadFromFile, hft]

/-- Claim C5 witness: the amended theorem applied with a stale provided
snapshot and a missing cache file: one rebuild, returned time at the build
instant 1200 which is after the call start 1000. -/
theorem fresh_cache_stale_provided_behavior_witness :
    fresh_cache (some (snapAt 800)) 100 false .missing (snapAt 1200) 1000 =
      ⟨snapAt 1200, 1⟩ ∧
    (1000 : Int) ≤ (fresh_cache (some (snapAt 800)) 100 false .missing (snapAt 1200)
      1000).snap.time :=
  (fresh_cache_stale_provided_behavior (snapAt 800) 100 false .missing (snapAt 1200) 1000
    (by decide) (by decide)).1 (by decide)

/-- Claim C6 counterexample: `setup_cache` sorts each contact's invoices by
the raw `created_at` string, so with mixed UTC offsets the built list
`[invY, invX]` is not in chronological order of the parsed timestamps: the
first entry parses to an earlier instant than the second. -/
theorem invoice_order_not_chronological :
    (setup_cache [] [] [] [invX, invY] {} 1672500000).map (fun s =>
      alGet s.invoices (.int 1)) = .ok (some [invY, invX]) ∧
    parseTs invY.created_at = some 1672389395 ∧
    parseTs invX.created_at = some 1672394400 ∧
    (1672389395 : Int) < 1672394400 := by
  decide

/-- Claim C6 (amended): in every snapshot built by `setup_cache`, each
contact's invoice list is non-increasing in the lexicographic order of the
raw `created_at` strings, and the flattened `invoices/all.json` list written
by `push_to_files` is non-decreasing in that same string order (this
coincides with chronological order only when all timestamps share one UTC
offset, not in general). -/
theorem invoice_lists_sorted_by_created_at_string (contacts : List Contact)
    (groups : List (PKey × Group)) (memberships : List MembershipRec)
    (rawInvoices : List Invoice) (org : Org) (now : Int) (s : Snapshot)
    (hs : setup_cache contacts groups memberships rawInvoices org now = .ok s) :
    (∀ cid l, alGet s.invoices cid = some l → List.Sorted invDesc l) ∧
    (∀ cfg s1 out, pushToFiles s cfg = .ok (s1, out) →
      List.Sorted invAsc out.allInvoices) := by
  constructor
  · intro cid l hl
    simp only [setup_cache] at hs
    split at hs
    · exact absurd hs (by simp)
    · rename_i inv nw hbuild
      simp only [Except.ok.injEq] at hs
      have hinv : s.invoices = (trimInvoices inv nw now).map fun p =>
          (p.1, sortDesc p.2) := by
        rw [← hs]
      rw [hinv, alGet_map_sortDesc] at hl
      cases halg : alGet (trimInvoices inv nw now) cid with
      | none => rw [halg] at hl; exact absurd hl (by simp)
      | some l0 =>
        rw [halg] at hl
        simp only [Option.map_some', Option.some.injEq] at hl
        rw [← hl]
        exact List.sorted_insertionSort invDesc l0
  · intro cfg s1 out hp
    simp only [pushToFiles] at hp
    split at hp
    · exact absurd hp (by simp)
    · rename_i cs1 gs1 hac
      simp only [Except.ok.injEq, Prod.mk.injEq] at hp
      obtain ⟨hp1, hp2⟩ := hp
      subst hp2
      exact List.sorted_insertionSort invAsc _

/-- Claim C6 witness: the amended theorem applied to the concrete build from
`[invX, invY]`; the built list for contact 1 is `[invY, invX]`, sorted
non-increasing by the `created_at` strings. -/
theorem invoice_lists_sorted_witness :
    setup_cache [] [] [] [invX, invY] {} 1672500000 = .ok sC6 ∧
    List.Sorted invDesc [invY, invX] :=
  ⟨by decide,
    (invoice_lists_sorted_by_created_at_string [] [] [] [invX, invY] {} 1672500000 sC6
      (by decide)).1 (.int 1) [invY, invX] (by decide)⟩

/-- Claim C8: when `fresh_cache` reaches the cache file (no provided snapshot,
or a stale one, or `force`) and the file is missing (`FileNotFoundError`) or
unparseable (`JSONDecodeError`), it recovers by performing exactly one
`setup_cache` rebuild and returns the freshly built snapshot; both exception
handlers return normally, so this path never terminates the process (unlike
transport errors inside `query`, which call `sys.exit(1)`). -/
theorem fresh_cache_recovers_cache_corruption (provided : Option Snapshot) (expiry : Int)
    (force : Bool) (file : FileState) (built : Snapshot) (now : Int)
    (hfile : file = .missing ∨ file = .invalid)
    (hprov : provided = none ∨
      ∃ c, provided = some c ∧ (staleAt c.time now expiry || force) = true) :
    fresh_cache provided expiry force file built now = ⟨built, 1⟩ := by
  have hload : loadFromFile expiry force file built now = ⟨built, 1⟩ := by
    rcases hfile with h | h <;> rw [h] <;> rfl
  rcases hprov with h | ⟨c, hc, hstale⟩
  · rw [h]
    simpa [fresh_cache] using hload
  · rw [hc]
    simp [fresh_cache, hstale, hload]

/-- Claim C8 witness: missing cache file and no provided snapshot: the fresh
rebuild is returned with exactly one rebuild. -/
theorem fresh_cache_recovers_cache_corruption_witness :
    fresh_cache none 86400 false .missing (snapAt 500) 0 = ⟨snapAt 500, 1⟩ :=
  fresh_cache_recovers_cache_corruption none 86400 false .missing (snapAt 500) 0
    (Or.inl rfl) (Or.inl rfl)

/-- Claim C9: with a contact provided, `get_custom_field` returns `none`
exactly when the field-id resolution yields no usable id (the name is absent
from the config mapping — which also discards any explicitly passed id — or
the resolved id is falsy) or no entry of the contact's `custom_fields` has
the resolved id; otherwise it returns the full matching field record (id and
value), a member of the contact's `custom_fields` list. -/
theorem get_custom_field_none_iff (config : Config) (cache : Option Snapshot)
    (contact_id : Option String) (c : Contact) (field_id field_map_name : Option String) :
    (get_custom_field config cache contact_id (some c) field_id field_map_name = none ↔
      truthyOS (resolveFieldId config field_id field_map_name) = false ∨
        ∀ f ∈ c.custom_fields,
          f.id ≠ (resolveFieldId config field_id field_map_name).getD "") ∧
    ∀ f, get_custom_field config cache contact_id (some c) field_id field_map_name =
        some f →
      truthyOS (resolveFieldId config field_id field_map_name) = true ∧
      f ∈ c.custom_fields ∧
      f.id = (resolveFieldId config field_id field_map_name).getD "" := by
  cases htr : truthyOS (resolveFieldId config field_id field_map_name) with
  | false =>
    have hval : get_custom_field config cache contact_id (some c) field_id
        field_map_name = none := by
      simp [get_custom_field, htr]
    rw [hval]
    constructor
    · exact ⟨fun _ => Or.inl rfl, fun _ => rfl⟩
    · intro f hf
      exact absurd hf (by simp)
  | true =>
    have hval : get_custom_field config cache contact_id (some c) field_id
        field_map_name = c.custom_fields.find? fun f =>
          f.id = (resolveFieldId config field_id field_map_name).getD "" := by
      simp [get_custom_field, htr]
    rw [hval]
    constructor
    · constructor
      · intro hnone
        refine Or.inr fun f hf => ?_
        have hne := List.find?_eq_none.mp hnone f hf
        simpa using hne
      · intro hor
        rcases hor with hfa | hall
        · exact absurd hfa (by simp)
        · exact List.find?_eq_none.mpr fun f hf => by simpa using hall f hf
    · intro f hf
      refine ⟨rfl, List.mem_of_find?_eq_some hf, ?_⟩
      simpa using List.find?_some hf

/-- Claim C9 witness: the claim theorem applied to a contact with no custom
fields and an unmapped field name: the resolution fails, so the result is
`none`. -/
theorem get_custom_field_none_iff_witness :
    get_custom_field cfg0 none none (some cW9) none (some "slack") = none :=
  (get_custom_field_none_iff cfg0 none none cW9 none (some "slack")).1.mpr
    (Or.inl (by decide))

/-- Claim C10: `push_to_files` completes exactly when every group reference of
every contact string-normalizes to an id that is a key of the snapshot's
groups dict; when some contact references a group whose string id is not a
key — as for a snapshot freshly built from the network, whose groups dict is
keyed by raw integer ids — the lookup `groups[str(id)]` raises `KeyError` and
the run aborts instead of returning an absent result. -/
theorem pushToFiles_ok_iff_refs_resolve (s : Snapshot) (cfg : Config) :
    ((∃ p, pushToFiles s cfg = .ok p) ↔
      ∀ c ∈ s.contacts, ∀ r ∈ c.groups,
        (alGet s.groups (.str (pkeyStr r.id))).isSome = true) ∧
    ((∃ c ∈ s.contacts, ∃ r ∈ c.groups,
        (alGet s.groups (.str (pkeyStr r.id))).isSome = false) →
      pushToFiles s cfg = .error "KeyError") := by
  constructor
  · constructor
    · rintro ⟨p, hp⟩
      refine (addContacts_ok_iff s.contacts s.groups).mp ?_
      cases hac : addContacts s.contacts s.groups with
      | error e =>
        rw [show pushToFiles s cfg = .error e from by simp only [pushToFiles, hac]] at hp
        exact absurd hp (by simp)
      | ok o => exact ⟨o, rfl⟩
    · intro hall
      obtain ⟨o, ho⟩ := (addContacts_ok_iff s.contacts s.groups).mpr hall
      obtain ⟨cs1, gs1⟩ := o
      simp only [pushToFiles, ho]
      exact ⟨_, rfl⟩
  · rintro ⟨c, hc, r, hr, hfalse⟩
    have hnall : ¬ ∀ c ∈ s.contacts, ∀ r ∈ c.groups,
        (alGet s.groups (.str (pkeyStr r.id))).isSome = true := by
      intro hall
      rw [hall c hc r hr] at hfalse
      exact absurd hfalse (by simp)
    cases hac : addContacts s.contacts s.groups with
    | error e =>
      have he : e = "KeyError" := addContacts_error s.contacts s.groups e hac
      subst he
      simp only [pushToFiles, hac]
    | ok o =>
      exact absurd ((addContacts_ok_iff s.contacts s.groups).mp ⟨o, hac⟩) hnall

/-- Claim C10 witness: the snapshot `sKE` keys its groups dict by the integer
5 while the contact references group 5; `str(5) = "5"` is not a key, so the
run aborts with `KeyError`. -/
theorem pushToFiles_ok_iff_refs_resolve_witness :
    pushToFiles sKE cfg0 = .error "KeyError" :=
  (pushToFiles_ok_iff_refs_resolve sKE cfg0).2
    ⟨c3W, by decide, ⟨.int 5⟩, by decide, by decide⟩

/-- Claim C3 counterexample: `push_to_files` mutates its input snapshot; after
the call over `s3W` the snapshot's group carries a `membership` key it did not
have before, and the contact's group reference id changed from the integer 5
to the string "5". -/
theorem pushToFiles_mutates_input :
    (pushToFiles s3W cfg0).map (fun p =>
      (p.1.groups.map fun q => q.2.membership,
       p.1.contacts.map fun c => c.groups.map fun r => r.id)) =
      .ok ([some [PKey.int 1]], [[PKey.str "5"]]) ∧
    s3W.groups.map (fun q => q.2.membership) = [none] ∧
    s3W.contacts.map (fun c => c.groups.map fun r => r.id) = [[PKey.int 5]] := by
  decide

/-- Claim C3 (amended): `push_to_files` does mutate its input snapshot: on a
successful run every contact's group reference id is string-normalized in
place, and the per-group membership cross-reference is stored into the
snapshot's groups mapping (which is the very object written as the groups
output), while the invoices, memberships, org and time fields stay unchanged. -/
theorem pushToFiles_mutation_characterization (s : Snapshot) (cfg : Config)
    (s1 : Snapshot) (o : Output)
    (hnd : (s.groups.map Prod.fst).Nodup)
    (h : pushToFiles s cfg = .ok (s1, o)) :
    s1.contacts = s.contacts.map stringifyContact ∧
    s1.groups = s.groups.map
      (fun p => (p.1, memAppend (contactApps p.1 s.contacts) p.2)) ∧
    o.groupsOut = s1.groups ∧
    s1.invoices = s.invoices ∧ s1.memberships = s.memberships ∧
    s1.org = s.org ∧ s1.time = s.time := by
  simp only [pushToFiles] at h
  split at h
  · exact absurd h (by simp)
  · rename_i cs1 gs1 hac
    simp only [Except.ok.injEq, Prod.mk.injEq] at h
    obtain ⟨h1, h2⟩ := h
    subst h1
    subst h2
    obtain ⟨hA, hB⟩ := addContacts_char s.contacts s.groups cs1 gs1 hnd hac
    exact ⟨hA, hB, rfl, rfl, rfl, rfl, rfl⟩

/-- Claim C3 witness: the amended mutation characterization applied to the
concrete run over `s3W`. -/
theorem pushToFiles_mutation_characterization_witness :
    sW3a.contacts = s3W.contacts.map stringifyContact ∧
    sW3a.groups = s3W.groups.map
      (fun p => (p.1, memAppend (contactApps p.1 s3W.contacts) p.2)) ∧
    oW3a.groupsOut = sW3a.groups ∧
    sW3a.invoices = s3W.invoices ∧ sW3a.memberships = s3W.memberships ∧
    sW3a.org = s3W.org ∧ sW3a.time = s3W.time :=
  pushToFiles_mutation_characterization s3W cfg0 sW3a oW3a (by decide) (by decide)

/-- Claim C7 counterexample: a contact whose groups list references group 5
twice is appended once per reference, so the materialized membership for
group 5 is `[1, 1]`, not the list `[1]` of contacts that contain such a
reference. -/
theorem membership_duplicate_refs :
    (pushToFiles s7 cfg0).map (fun p =>
      (alGet p.2.groupsOut (.str "5")).map fun gp => gp.membership) =
      .ok (some (some [PKey.int 1, PKey.int 1])) ∧
    (s7.contacts.filter fun c => c.groups.any fun r => pkeyStr r.id == "5").map
      (fun c => c.id) = [PKey.int 1] ∧
    [PKey.int 1, PKey.int 1] ≠ [PKey.int 1] := by
  decide

/-- Claim C7 (amended): for a snapshot whose groups carry no pre-existing
membership lists (true of every raw or rebuilt snapshot) and whose groups
dict has no duplicate keys, a successful `push_to_files` materializes for the
group stored under the string id `g` exactly the per-reference fan-out list
`contactApps`: one copy of the contact's id, in contact iteration order, for
each reference in that contact's groups list whose id string-normalizes to
`g`; the membership key is absent exactly when no contact references `g`.
When no contact lists a group twice this is the list of ids of exactly those
contacts whose groups list references `g`. -/
theorem membership_fanout_characterization (s : Snapshot) (cfg : Config)
    (s1 : Snapshot) (o : Output) (g : String) (gp : Group)
    (hnd : (s.groups.map Prod.fst).Nodup)
    (hnm : ∀ p ∈ s.groups, (p.2 : Group).membership = none)
    (h : pushToFiles s cfg = .ok (s1, o))
    (hg : alGet o.groupsOut (.str g) = some gp) :
    gp.membership = if (contactApps (.str g) s.contacts).isEmpty then none
      else some (contactApps (.str g) s.contacts) := by
  simp only [pushToFiles] at h
  split at h
  · exact absurd h (by simp)
  · rename_i cs1 gs1 hac
    simp only [Except.ok.injEq, Prod.mk.injEq] at h
    obtain ⟨h1, h2⟩ := h
    subst h1
    subst h2
    obtain ⟨hA, hB⟩ := addContacts_char s.contacts s.groups cs1 gs1 hnd hac
    have hg1 : alGet gs1 (PKey.str g) = some gp := hg
    rw [hB, alGet_map_memAppend] at hg1
    cases hx : alGet s.groups (PKey.str g) with
    | none => rw [hx] at hg1; exact absurd hg1 (by simp)
    | some gp0 =>
      rw [hx] at hg1
      simp only [Option.map_some', Option.some.injEq] at hg1
      rw [← hg1]
      exact memAppend_membership_of_none _ _ (hnm (PKey.str g, gp0) (alGet_mem hx))

/-- Claim C7 witness: the fan-out characterization applied to the run over
`sRepeat`: group "5" is materialized with membership `[1, 2]`, the contact
ids in iteration order. -/
theorem membership_fanout_characterization_witness :
    ({ membership := some [PKey.int 1, PKey.int 2] } : Group).membership =
      if (contactApps (.str "5") sRepeat.contacts).isEmpty then none
      else some (contactApps (.str "5") sRepeat.contacts) :=
  membership_fanout_characterization sRepeat cfg0 sW1 oW1 "5"
    { membership := some [PKey.int 1, PKey.int 2] }
    (by decide) (by decide) (by decide) (by decide)

/-- Claim C2 counterexample: calling `push_to_files` twice with the same
snapshot object produces different output trees: the first run stores the
membership fan-out into the shared snapshot, so the second run appends the
contact ids again and writes group 5 with membership `[1, 2, 1, 2]` instead
of `[1, 2]`. -/
theorem pushToFiles_not_idempotent :
    ((pushToFiles sRepeat cfg0).bind fun p => (pushToFiles p.1 cfg0).map fun q =>
      ((alGet p.2.groupsOut (.str "5")).map (fun gp => gp.membership),
       (alGet q.2.groupsOut (.str "5")).map (fun gp => gp.membership),
       decide (p.2 = q.2))) =
    .ok (some (some [PKey.int 1, PKey.int 2]),
         some (some [PKey.int 1, PKey.int 2, PKey.int 1, PKey.int 2]), false) := by
  decide

/-- Claim C2 (amended): for a snapshot whose group reference ids already are
strings and whose groups carry no membership lists yet (the state of a
snapshot reloaded from the cache file), running `push_to_files` twice on the
same snapshot object yields a second output tree identical to the first in
every artifact except the group files, where each group's membership list is
the first run's list concatenated with itself; materialization is therefore
not idempotent on a shared snapshot, the divergence being exactly this
doubling. -/
theorem pushToFiles_repeat_doubles_membership (s : Snapshot) (cfg : Config)
    (s1 s2 : Snapshot) (o1 o2 : Output)
    (hnd : (s.groups.map Prod.fst).Nodup)
    (hstr : ∀ c ∈ s.contacts, ∀ r ∈ c.groups, isStrKey r.id = true)
    (hnm : ∀ p ∈ s.groups, (p.2 : Group).membership = none)
    (h1 : pushToFiles s cfg = .ok (s1, o1))
    (h2 : pushToFiles s1 cfg = .ok (s2, o2)) :
    o2 = { o1 with groupsOut := o1.groupsOut.map fun p =>
        (p.1, { p.2 with membership := p.2.membership.map fun l => l ++ l }) } := by
  simp only [pushToFiles] at h1
  split at h1
  · exact absurd h1 (by simp)
  · rename_i cs1 gs1 hac1
    simp only [Except.ok.injEq, Prod.mk.injEq] at h1
    obtain ⟨hs1, ho1⟩ := h1
    subst hs1
    subst ho1
    obtain ⟨hA1, hB1⟩ := addContacts_char s.contacts s.groups cs1 gs1 hnd hac1
    have hcs1 : cs1 = s.contacts := by
      rw [hA1, map_stringifyContact_id s.contacts hstr]
    simp only [pushToFiles] at h2
    split at h2
    · exact absurd h2 (by simp)
    · rename_i cs2 gs2 hac2
      simp only [Except.ok.injEq, Prod.mk.injEq] at h2
      obtain ⟨hs2, ho2⟩ := h2
      subst hs2
      subst ho2
      have hndA : (gs1.map Prod.fst).Nodup := by
        rw [hB1, List.map_map]
        have hfst : (Prod.fst ∘ fun p : PKey × Group =>
            (p.1, memAppend (contactApps p.1 s.contacts) p.2)) = Prod.fst := by
          funext p; rfl
        rw [hfst]
        exact hnd
      obtain ⟨hA2, hB2⟩ := addContacts_char cs1 gs1 cs2 gs2 hndA hac2
      have hcs2 : cs2 = s.contacts := by
        rw [hA2, hcs1, map_stringifyContact_id s.contacts hstr]
      have hgO : gs2 = gs1.map fun p =>
          (p.1, { p.2 with membership := p.2.membership.map fun l => l ++ l }) := by
        rw [hB2, hcs1, hB1, List.map_map, List.map_map]
        apply List.map_congr_left
        intro p hp
        simp only [Function.comp]
        exact congrArg (Prod.mk p.1) (memAppend_twice_of_none _ _ (hnm p hp))
      dsimp only
      congr 1
      all_goals first
        | exact hgO
        | rw [hcs2, hcs1]
        | rw [hcs1]

/-- Claim C2 witness: the doubling theorem applied to the concrete double run
over `sRepeat`. -/
theorem pushToFiles_repeat_doubles_membership_witness :
    oW2 = { oW1 with groupsOut := oW1.groupsOut.map fun p =>
        (p.1, { p.2 with membership := p.2.membership.map fun l => l ++ l }) } :=
  pushToFiles_repeat_doubles_membership sRepeat cfg0 sW1 sW2 oW1 oW2
    (by decide) (by decide) (by decide) (by decide) (by decide)

end TidyHQ
